import Mathlib

/-!
Shallow embedding of `src/utils/utils.ts` of react-spectrum-charts.

The component tree is the heterogeneous React child tree the utilities walk:
a child is `undefined`, a string, a boolean, an array of children, or an
element `{type, props}` whose props may carry a user-supplied `name` string
and an optional `children` entry.  The `type` field is an opaque identity
token: one of the chart-primitive component constants (Area, Axis,
AxisAnnotation, Bar, ChartPopover, ChartTooltip, Legend, Line, Trendline),
React's Fragment, or any other component (`other`, e.g. the Prism chart
shell).  Types are compared only for equality, exactly as `===` does in the
source.
-/

inductive NodeType where
  | area
  | axis
  | axisAnnot
  | bar
  | chartPopover
  | chartTooltip
  | legend
  | line
  | trendline
  | fragment
  | other (id : Nat)
deriving DecidableEq, Repr

/-!
A React child value (`ChildElement` in the source) is `undefined`, a string
leaf, a boolean leaf, an array of children, or an element node carrying its
`type`, its optional `props.name`, and its `props.children` entry.
`RChildren` models presence of the `children` key in `props` (`'children' in
element.props`): `absent` means the key is missing, `present c` that it holds
the child value `c` (which may itself be `undef`).
-/
mutual
inductive RChild where
  | undef : RChild
  | str : String → RChild
  | bool : Bool → RChild
  | arr : RChildList → RChild
  | elem : NodeType → Option String → RChildren → RChild
deriving DecidableEq, Repr

inductive RChildList where
  | nil : RChildList
  | cons : RChild → RChildList → RChildList
deriving DecidableEq, Repr

inductive RChildren where
  | absent : RChildren
  | present : RChild → RChildren
deriving DecidableEq, Repr
end

def RChildList.toList : RChildList → List RChild
  | .nil => []
  | .cons c rest => c :: rest.toList

/-- Model of `toArray<Child>(children)`: `[]` for `undefined`, the array itself for an
array, else the one-element array.  The domain is the value of a `children`
prop (`absent` plays the role of the `undefined` that an absent key yields). -/
def toArray : RChildren → List RChild
  | .absent => []
  | .present .undef => []
  | .present (.str s) => [.str s]
  | .present (.bool b) => [.bool b]
  | .present (.arr cs) => cs.toList
  | .present (.elem t nm ch) => [.elem t nm ch]

/-- JavaScript `Array.prototype.flat()`: flattens exactly one level of nested
arrays, leaving deeper nesting alone. -/
def flatOnce : List RChild → List RChild
  | [] => []
  | .arr cs :: rest => cs.toList ++ flatOnce rest
  | c :: rest => c :: flatOnce rest

/-- Model of `isPrismComponent`: `Boolean(child && typeof child !== 'string' && typeof
child !== 'boolean' && 'type' in child && child.type !== Fragment)`.  Arrays
and `undefined` fail the `'type' in child` / truthiness checks. -/
def isPrismComponent : RChild → Bool
  | .elem t _ _ => !(t == .fragment)
  | _ => false

def isChartChildElement (child : RChild) : Bool :=
  isPrismComponent child

def isMarkChildElement (child : RChild) : Bool :=
  isPrismComponent child

def sanitizeChartChildren (children : RChildren) : List RChild :=
  (flatOnce (toArray children)).filter (fun child => isChartChildElement child)

def sanitizeMarkChildren (children : RChildren) : List RChild :=
  (flatOnce (toArray children)).filter (fun child => isMarkChildElement child)

def sanitizeAxisChildren (children : RChildren) : List RChild :=
  (flatOnce (toArray children)).filter (fun child => isMarkChildElement child)

def sanitizeAxisAnnotationChildren (children : RChildren) : List RChild :=
  (flatOnce (toArray children)).filter (fun child => isMarkChildElement child)

def sanitizeTrendlineChildren (children : RChildren) : List RChild :=
  (flatOnce (toArray children)).filter (fun child => isMarkChildElement child)

/-!
Model of the tokenizing regular expression shared by `toCamelCase` and
`toSnakeCase`:

  `/[A-Z]{2,}(?=[A-Z][a-z]+\d*|\b)|[A-Z]?[a-z]+\d*|[A-Z]|\d+/g`

`String.prototype.match` with the `g` flag scans left to right; at each
position the four alternatives are tried in order (the first one with
backtracking over the greedy `{2,}` repetition, longest first), and on
failure the scan advances one character.  `\b` and `\w` follow the
ECMAScript definition: a word character is `[A-Za-z0-9_]` — in particular
the underscore is a word character, so no boundary sits between `Y` and `_`
in `MY_`.
-/

def isUpperAZ (c : Char) : Bool := 'A' ≤ c && c ≤ 'Z'

def isLowerAZ (c : Char) : Bool := 'a' ≤ c && c ≤ 'z'

def isDigit09 (c : Char) : Bool := '0' ≤ c && c ≤ '9'

def isWordChar (c : Char) : Bool := isUpperAZ c || isLowerAZ c || isDigit09 c || c == '_'

/-- The lookahead branch `[A-Z][a-z]+\d*` succeeds at a position iff an
uppercase letter followed by at least one lowercase letter starts there. -/
def lookCapWord : List Char → Bool
  | c :: d :: _ => isUpperAZ c && isLowerAZ d
  | _ => false

/-- The lookahead branch `\b`, checked at a position whose previous character
is a word character (an uppercase letter): a boundary iff the input ends here
or the next character is not a word character. -/
def lookBoundary : List Char → Bool
  | [] => true
  | c :: _ => !(isWordChar c)

/-- Backtracking search for `[A-Z]{2,}(?=...)`: try to consume `j` uppercase
letters, from the full run length down to 2, until the lookahead succeeds. -/
def alt1Search (l : List Char) : Nat → Option Nat
  | 0 => none
  | 1 => none
  | j + 2 =>
    if lookCapWord (l.drop (j + 2)) || lookBoundary (l.drop (j + 2)) then some (j + 2)
    else alt1Search l (j + 1)

/-- One match attempt of the tokenizing regex at the head of `l`: the number
of characters the leftmost-successful alternative consumes, or `none`. -/
def matchOne (l : List Char) : Option Nat :=
  match alt1Search l (l.takeWhile isUpperAZ).length with
  | some n => some n
  | none =>
    match l with
    | [] => none
    | c :: rest =>
      if isUpperAZ c then
        if (rest.takeWhile isLowerAZ).length ≠ 0 then
          some (1 + (rest.takeWhile isLowerAZ).length
            + ((rest.drop (rest.takeWhile isLowerAZ).length).takeWhile isDigit09).length)
        else some 1
      else if isLowerAZ c then
        some (1 + (rest.takeWhile isLowerAZ).length
          + ((rest.drop (rest.takeWhile isLowerAZ).length).takeWhile isDigit09).length)
      else if isDigit09 c then some ((l.takeWhile isDigit09).length)
      else none

/-- Global scan of the tokenizing regex.  The fuel starts at the input length
and every step either consumes a (nonempty) match or advances one character,
so it never runs out; it only makes the recursion structural. -/
def tokenizeAux : Nat → List Char → List (List Char)
  | 0, _ => []
  | _ + 1, [] => []
  | fuel + 1, c :: rest =>
    match matchOne (c :: rest) with
    | some n => (c :: rest).take n :: tokenizeAux fuel ((c :: rest).drop n)
    | none => tokenizeAux fuel rest

def tokenize (l : List Char) : List (List Char) :=
  tokenizeAux l.length l

/-- Model of `word.toLowerCase()` (tokens consist of ASCII letters and digits only,
where `Char.toLower` agrees with JavaScript). -/
def lowerWord (w : List Char) : List Char := w.map Char.toLower

/-- Model of `word.charAt(0).toUpperCase() + word.slice(1).toLowerCase()`. -/
def capWord : List Char → List Char
  | [] => []
  | c :: rest => Char.toUpper c :: rest.map Char.toLower

/-- Model of `toCamelCase`: tokenize; if no tokens, return the input unchanged; else
lowercase the first token, capitalize the rest, join with no separator. -/
def toCamelCase (str : String) : String :=
  match tokenize str.data with
  | [] => str
  | w :: ws => String.mk (lowerWord w ++ (ws.map capWord).flatten)

/-- Model of `toSnakeCase`: tokenize; if no tokens, return the input unchanged; else
lowercase every token and join with underscores. -/
def toSnakeCase (str : String) : String :=
  match tokenize str.data with
  | [] => str
  | ws => String.intercalate "_" (ws.map (fun w => String.mk (lowerWord w)))

/-- Model of `toggleStringArrayValue`: remove the value if present, append it if not. -/
def toggleStringArrayValue (target : List String) (value : String) : List String :=
  if target.contains value then target.filter (fun item => item ≠ value)
  else target ++ [value]

/-- The record type `MappedElement` of the source: a stable name paired
with the matched element. -/
structure MappedElement where
  name : String
  element : RChild
deriving DecidableEq, Repr

/-- The source's `ElementCounts`: the per-recursion-level occurrence counters.  The field
for AxisAnnotation is called `axisAnnot` here (`axisAnnotation` in the
source). -/
structure ElementCounts where
  area : Int
  axis : Int
  axisAnnot : Int
  bar : Int
  legend : Int
  line : Int
deriving DecidableEq, Repr

def initElementCounts : ElementCounts :=
  { area := -1, axis := -1, axisAnnot := -1, bar := -1, legend := -1, line := -1 }

/-- Model of `getComponentName(element, defaultName)`: the camel-cased user-supplied
`props.name` when it is present and truthy (a non-empty string), else the
default. -/
def getComponentName (element : RChild) (defaultName : String) : String :=
  match element with
  | .elem _ (some nm) _ => if nm ≠ "" then toCamelCase nm else defaultName
  | _ => defaultName

/-- Model of `getElementName(element, elementCounts)`: the in-place `elementCounts.x++`
mutation is modelled by returning the updated counts next to the name.  Note
the displayed number is the value after the increment (`-1` becomes `0` for
the first occurrence) and that the AxisAnnotation label in the format string
is `Annotation`, capitalized and without the `axis` part. -/
def getElementName (element : RChild) (elementCounts : ElementCounts) :
    String × ElementCounts :=
  match element with
  | .elem ty nm ch =>
    match ty with
    | .area =>
      (getComponentName (.elem ty nm ch) ("area" ++ toString (elementCounts.area + 1)),
        { elementCounts with area := elementCounts.area + 1 })
    | .axis =>
      (getComponentName (.elem ty nm ch) ("axis" ++ toString (elementCounts.axis + 1)),
        { elementCounts with axis := elementCounts.axis + 1 })
    | .axisAnnot =>
      (getComponentName (.elem ty nm ch) ("Annotation" ++ toString (elementCounts.axisAnnot + 1)),
        { elementCounts with axisAnnot := elementCounts.axisAnnot + 1 })
    | .bar =>
      (getComponentName (.elem ty nm ch) ("bar" ++ toString (elementCounts.bar + 1)),
        { elementCounts with bar := elementCounts.bar + 1 })
    | .legend =>
      (getComponentName (.elem ty nm ch) ("legend" ++ toString (elementCounts.legend + 1)),
        { elementCounts with legend := elementCounts.legend + 1 })
    | .line =>
      (getComponentName (.elem ty nm ch) ("line" ++ toString (elementCounts.line + 1)),
        { elementCounts with line := elementCounts.line + 1 })
    | .trendline => (getComponentName (.elem ty nm ch) "Trendline", elementCounts)
    | _ => ("", elementCounts)
  | _ => ("", elementCounts)

/-- Model of the name composition `[name, childName].filter(Boolean).join('')`: drop the falsy (empty)
strings, then concatenate. -/
def joinNames (name childName : String) : String :=
  String.join (([name, childName]).filter (fun s => s ≠ ""))

/-!
`getElement(element, type)`: depth-first pre-order search for the first
element whose `type` matches.  The source iterates `for (const child of
toArray(element.props.children))`, returning the first non-undefined
recursive result; here the `toArray` coercion is split into its cases at the
recursion site so that the recursion stays structural: an absent key and a
present-but-undefined value search nothing, a present array is iterated by
`getElementList` (= the source's loop), and a present single child is the
loop over the one-element array `[child]`, which returns exactly
`getElement(child, type)`.  `getElement_children_loop` below re-states the
source's loop shape literally and is proved about this definition.
-/
mutual
def getElement (element : RChild) (ty : NodeType) : Option RChild :=
  match element with
  | .elem t nm ch =>
    if t = .fragment then none
    else if t = ty then some (.elem t nm ch)
    else
      match ch with
      | .absent => none
      | .present .undef => none
      | .present (.arr cs) => getElementList cs ty
      | .present c => getElement c ty
  | _ => none

def getElementList (children : RChildList) (ty : NodeType) : Option RChild :=
  match children with
  | .nil => none
  | .cons child rest =>
    match getElement child ty with
    | some e => some e
    | none => getElementList rest ty
end

/-!
`getAllElements(target, source, elements, name)`: exhaustive naming
traversal.  As in the source, a matching node is recorded (with the name
accumulated so far) and its descendants are not searched; otherwise a fresh
`ElementCounts` map is created, and the loop over `toArray(children)` derives
each child's segment (mutating the counts, threaded here through
`getAllElementsList`), recurses passing the ORIGINAL accumulator `elements`
and the composed name, and pushes each child call's full result into
`desiredElements`; the call returns `[...elements, ...desiredElements]`.
The `toArray` cases are split at the recursion site as for `getElement`;
for a present single child the loop body runs once with the fresh counts.
-/
mutual
def getAllElements (target : RChild) (source : NodeType) (elements : List MappedElement)
    (name : String) : List MappedElement :=
  match target with
  | .elem t nm ch =>
    if t = .fragment then elements
    else if t = source then elements ++ [⟨name, .elem t nm ch⟩]
    else
      match ch with
      | .absent => elements
      | .present .undef => elements ++ []
      | .present (.arr cs) =>
        elements ++ (getAllElementsList cs source elements name initElementCounts).2
      | .present c =>
        elements ++ getAllElements c source elements
          (joinNames name (getElementName c initElementCounts).1)
  | _ => elements

def getAllElementsList (children : RChildList) (source : NodeType)
    (elements : List MappedElement) (name : String) (counts : ElementCounts) :
    ElementCounts × List MappedElement :=
  match children with
  | .nil => (counts, [])
  | .cons child rest =>
    let tagged := getElementName child counts
    let childResult := getAllElements child source elements (joinNames name tagged.1)
    let restResult := getAllElementsList rest source elements name tagged.2
    (restResult.1, childResult ++ restResult.2)
end

/-!
Specification-side definitions, written to the spec's wording and compared
with the embedded code by the theorems below.
-/

/-!
Spec reading of the exhaustive traversal's match set: pre-order,
first-match-per-branch collection of the nodes of type `source` that the
traversal can reach, descending only through traversable non-matching
element nodes (gates as in sections 4.4/4.5 of the spec).
-/
mutual
def shallowMatches (target : RChild) (source : NodeType) : List RChild :=
  match target with
  | .elem t nm ch =>
    if t = .fragment then []
    else if t = source then [.elem t nm ch]
    else
      match ch with
      | .absent => []
      | .present .undef => []
      | .present (.arr cs) => shallowMatchesList cs source
      | .present c => shallowMatches c source
  | _ => []

def shallowMatchesList (children : RChildList) (source : NodeType) : List RChild :=
  match children with
  | .nil => []
  | .cons child rest => shallowMatches child source ++ shallowMatchesList rest source
end

/-!
Spec reading of name composition: each match is paired with the LIST of
segment names assigned along its path, from the root's level down to and
including the matched node itself (the root contributes no segment); the
stable name is their concatenation, taken by the comparison theorem via
`String.join`, so that an empty segment contributes nothing.
-/
mutual
def namedMatches (target : RChild) (source : NodeType) (segs : List String) :
    List (List String × RChild) :=
  match target with
  | .elem t nm ch =>
    if t = .fragment then []
    else if t = source then [(segs, .elem t nm ch)]
    else
      match ch with
      | .absent => []
      | .present .undef => []
      | .present (.arr cs) => namedMatchesList cs source segs initElementCounts
      | .present c =>
        namedMatches c source (segs ++ [(getElementName c initElementCounts).1])
  | _ => []

def namedMatchesList (children : RChildList) (source : NodeType) (segs : List String)
    (counts : ElementCounts) : List (List String × RChild) :=
  match children with
  | .nil => []
  | .cons child rest =>
    namedMatches child source (segs ++ [(getElementName child counts).1])
      ++ namedMatchesList rest source segs (getElementName child counts).2
end

/-- Spec-side filter of the sanitization layer: keep exactly the element
nodes whose type is not the Fragment tag. -/
def specKeep : RChild → Bool
  | .elem t _ _ => decide (t ≠ .fragment)
  | _ => false

/-- The removal set named by the spec's sanitization sentence: strings,
booleans, `undefined`, and wrapper (Fragment) nodes — nested arrays are NOT
in this set. -/
def specRemoved : RChild → Bool
  | .undef => true
  | .str _ => true
  | .bool _ => true
  | .arr _ => false
  | .elem t _ _ => t == .fragment

/-- The six counted chart-primitive kinds. -/
def countedKinds : List NodeType := [.area, .axis, .axisAnnot, .bar, .legend, .line]

/-- The label each counted kind contributes to its default positional name
(the format strings of `getElementName`). -/
def kindLabel : NodeType → String
  | .area => "area"
  | .axis => "axis"
  | .axisAnnot => "Annotation"
  | .bar => "bar"
  | .legend => "legend"
  | .line => "line"
  | _ => ""

/-- The counter of `counts` belonging to a counted kind. -/
def counterValue (counts : ElementCounts) : NodeType → Int
  | .area => counts.area
  | .axis => counts.axis
  | .axisAnnot => counts.axisAnnot
  | .bar => counts.bar
  | .legend => counts.legend
  | .line => counts.line
  | _ => 0

/-- An untitled (no user-supplied name) childless node of kind `K`. -/
def untitledNode (K : NodeType) : RChild := .elem K none .absent

/-- The counts map after `getElementName` has processed one more untitled
sibling of kind `K`. -/
def stepCounts (K : NodeType) (counts : ElementCounts) : ElementCounts :=
  (getElementName (untitledNode K) counts).2

/-- The default segment name `getElementName` assigns to the untitled sibling
of kind `K` at 0-based position `n`, counting from a fresh counts map. -/
def nthUntitledName (K : NodeType) (n : Nat) : String :=
  (getElementName (untitledNode K) ((stepCounts K)^[n] initElementCounts)).1

/-! Concrete trees used by counterexamples and witnesses. -/

def areaNode : RChild := .elem .area none .absent

def lineNode : RChild := .elem .line none .absent

def barNode : RChild := .elem .bar none .absent

def wrapperNode : RChild := .elem .fragment none .absent

/-- A parent (of a non-primitive type, like the Prism chart shell) with three
untitled Area children. -/
def threeAreasParent : RChild :=
  .elem (.other 0) none
    (.present (.arr (.cons areaNode (.cons areaNode (.cons areaNode .nil)))))

/-- A parent with one untitled AxisAnnotation child. -/
def annotParent : RChild :=
  .elem (.other 0) none (.present (.arr (.cons (.elem .axisAnnot none .absent) .nil)))

/-- A parent whose only child is a Fragment wrapping a Line node: the Line
has no Line-typed ancestor, yet the traversal's Fragment gate hides it. -/
def fragWrappedLine : RChild :=
  .elem (.other 0) none
    (.present (.arr (.cons (.elem .fragment none (.present (.arr (.cons lineNode .nil))))
      .nil)))

/-- A parent with a single untitled Line child. -/
def oneLineParent : RChild :=
  .elem (.other 0) none (.present (.arr (.cons lineNode .nil)))

/-- A pre-existing accumulator record. -/
def seedRecord : MappedElement := ⟨"r", .elem (.other 1) none .absent⟩

/-- A children value nested two array levels deep: `[[[Bar]]]`. -/
def deepNestedChildren : RChildren :=
  .present (.arr (.cons (.arr (.cons (.arr (.cons barNode .nil)) .nil)) .nil))

/-- The source's loop of `getAllElements` over an already-coerced children
array, stated on `List` (used by the faithfulness lemmas relating the
split-coercion definition above to the literal `for (const child of
toArray(target.props.children))` shape of the source). -/
def getAllElementsLoop (children : List RChild) (source : NodeType)
    (elements : List MappedElement) (name : String) (counts : ElementCounts) :
    ElementCounts × List MappedElement :=
  match children with
  | [] => (counts, [])
  | child :: rest =>
    let tagged := getElementName child counts
    let childResult := getAllElements child source elements (joinNames name tagged.1)
    let restResult := getAllElementsLoop rest source elements name tagged.2
    (restResult.1, childResult ++ restResult.2)

/-!
Theorems.  First a small library of facts about the embedding, then one
theorem per claim (with the counterexamples and witnesses the claims need).
-/

theorem joinNames_eq_append (name childName : String) :
    joinNames name childName = name ++ childName := by
  by_cases h1 : name = "" <;> by_cases h2 : childName = "" <;>
    simp [joinNames, h1, h2, String.join]

theorem join_append_singleton (l : List String) (s : String) :
    String.join (l ++ [s]) = String.join l ++ s := by
  simp [String.join, List.foldl_append]

/-- Faithfulness of the split `toArray` coercion in `getElement`: in the
recursive case the definition equals the source's loop, which returns the
first non-`undefined` recursive result over `toArray(children)`. -/
theorem getElementList_eq_findSome? (cs : RChildList) (ty : NodeType) :
    getElementList cs ty = cs.toList.findSome? (fun c => getElement c ty) := by
  cases cs with
  | nil => rfl
  | cons c rest =>
    have ih := getElementList_eq_findSome? rest ty
    simp only [getElementList, RChildList.toList, List.findSome?]
    cases getElement c ty <;> simp [ih]

theorem getElement_children_loop (t : NodeType) (nm : Option String) (ch : RChildren)
    (ty : NodeType) (hf : t ≠ .fragment) (hm : t ≠ ty) :
    getElement (.elem t nm ch) ty = (toArray ch).findSome? (fun c => getElement c ty) := by
  cases ch with
  | absent => simp [getElement, toArray, hf, hm]
  | present c =>
    cases c with
    | undef => simp [getElement, toArray, hf, hm]
    | str s => simp [getElement, toArray, hf, hm, List.findSome?]
    | bool b => simp [getElement, toArray, hf, hm, List.findSome?]
    | arr cs => simp [getElement, toArray, hf, hm, getElementList_eq_findSome?]
    | elem t2 nm2 ch2 =>
      simp only [getElement, toArray, hf, hm, if_neg, if_false, List.findSome?]
      cases getElement (.elem t2 nm2 ch2) ty <;> simp [hf, hm]

/-- Faithfulness of the split `toArray` coercion in `getAllElements`: the
recursive case equals `elements ++` the source's loop over `toArray(children)`
started on a fresh counts map. -/
theorem getAllElementsList_eq_loop (cs : RChildList) (source : NodeType)
    (elements : List MappedElement) (name : String) (counts : ElementCounts) :
    getAllElementsList cs source elements name counts
      = getAllElementsLoop cs.toList source elements name counts := by
  cases cs with
  | nil => rfl
  | cons c rest =>
    have ih := getAllElementsList_eq_loop rest source elements name
      (getElementName c counts).2
    simp [getAllElementsList, RChildList.toList, getAllElementsLoop, ih]

theorem getAllElements_children_loop (t : NodeType) (nm : Option String) (ch : RChildren)
    (source : NodeType) (elements : List MappedElement) (name : String)
    (hf : t ≠ .fragment) (hm : t ≠ source) (hch : ch ≠ .absent) :
    getAllElements (.elem t nm ch) source elements name
      = elements ++ (getAllElementsLoop (toArray ch) source elements name initElementCounts).2 := by
  cases ch with
  | absent => exact absurd rfl hch
  | present c =>
    cases c with
    | undef => simp [getAllElements, toArray, hf, hm, getAllElementsLoop]
    | str s => simp [getAllElements, toArray, hf, hm, getAllElementsLoop]
    | bool b => simp [getAllElements, toArray, hf, hm, getAllElementsLoop]
    | arr cs => simp [getAllElements, toArray, hf, hm, getAllElementsList_eq_loop]
    | elem t2 nm2 ch2 => simp [getAllElements, toArray, hf, hm, getAllElementsLoop]

/-! `getElement` returns the head of the pre-order match list. -/

mutual
theorem getElement_eq_head (t : RChild) (X : NodeType) :
    getElement t X = (shallowMatches t X).head? := by
  cases t with
  | undef => rfl
  | str s => rfl
  | bool b => rfl
  | arr cs => rfl
  | elem ty nm ch =>
    by_cases hf : ty = .fragment
    · subst hf
      cases ch with
      | absent => rfl
      | present c => cases c <;> rfl
    · by_cases hm : ty = X
      · subst hm
        cases ch with
        | absent => simp [getElement, shallowMatches, hf]
        | present c => cases c <;> simp [getElement, shallowMatches, hf]
      · cases ch with
        | absent => simp [getElement, shallowMatches, hf, hm]
        | present c =>
          cases c with
          | undef => simp [getElement, shallowMatches, hf, hm]
          | str s => simp [getElement, shallowMatches, hf, hm]
          | bool b => simp [getElement, shallowMatches, hf, hm]
          | arr cs =>
            simpa [getElement, shallowMatches, hf, hm] using getElementList_eq_head cs X
          | elem t2 nm2 ch2 =>
            simpa [getElement, shallowMatches, hf, hm] using
              getElement_eq_head (.elem t2 nm2 ch2) X

theorem getElementList_eq_head (cs : RChildList) (X : NodeType) :
    getElementList cs X = (shallowMatchesList cs X).head? := by
  cases cs with
  | nil => rfl
  | cons c rest =>
    have h1 := getElement_eq_head c X
    have h2 := getElementList_eq_head rest X
    simp only [getElementList, shallowMatchesList, h1, h2, List.head?_append]
    cases (shallowMatches c X).head? <;> simp [Option.or]
end

/-! With an empty accumulator, the records collected by `getAllElements`
are exactly the pre-order first-match-per-branch matches, whatever the name
argument is. -/

mutual
theorem getAllElements_elements (t : RChild) (X : NodeType) (nm : String) :
    (getAllElements t X [] nm).map MappedElement.element = shallowMatches t X := by
  cases t with
  | undef => rfl
  | str s => rfl
  | bool b => rfl
  | arr cs => rfl
  | elem ty n ch =>
    by_cases hf : ty = .fragment
    · subst hf
      cases ch with
      | absent => rfl
      | present c => cases c <;> rfl
    · by_cases hm : ty = X
      · subst hm
        cases ch with
        | absent => simp [getAllElements, shallowMatches, hf]
        | present c => cases c <;> simp [getAllElements, shallowMatches, hf]
      · cases ch with
        | absent => simp [getAllElements, shallowMatches, hf, hm]
        | present c =>
          cases c with
          | undef => simp [getAllElements, shallowMatches, hf, hm]
          | str s => simp [getAllElements, shallowMatches, hf, hm]
          | bool b => simp [getAllElements, shallowMatches, hf, hm]
          | arr cs =>
            simpa [getAllElements, shallowMatches, hf, hm] using
              getAllElementsList_elements cs X nm initElementCounts
          | elem t2 nm2 ch2 =>
            simpa [getAllElements, shallowMatches, hf, hm] using
              getAllElements_elements (.elem t2 nm2 ch2) X
                (joinNames nm (getElementName (.elem t2 nm2 ch2) initElementCounts).1)

theorem getAllElementsList_elements (cs : RChildList) (X : NodeType) (nm : String)
    (counts : ElementCounts) :
    ((getAllElementsList cs X [] nm counts).2).map MappedElement.element
      = shallowMatchesList cs X := by
  cases cs with
  | nil => rfl
  | cons c rest =>
    have h1 := getAllElements_elements c X (joinNames nm (getElementName c counts).1)
    have h2 := getAllElementsList_elements rest X nm (getElementName c counts).2
    simp [getAllElementsList, shallowMatchesList, h1, h2]
end

/-! With an empty accumulator, the full records (names included) are the
spec-side segment paths, joined; the name parameter enters as the join of
the segments accumulated so far. -/

mutual
theorem getAllElements_named (t : RChild) (X : NodeType) (segs : List String)
    (nm : String) (h : nm = String.join segs) :
    getAllElements t X [] nm
      = (namedMatches t X segs).map (fun p => ⟨String.join p.1, p.2⟩) := by
  cases t with
  | undef => rfl
  | str s => rfl
  | bool b => rfl
  | arr cs => rfl
  | elem ty n ch =>
    by_cases hf : ty = .fragment
    · subst hf
      cases ch with
      | absent => rfl
      | present c => cases c <;> rfl
    · by_cases hm : ty = X
      · subst hm
        cases ch with
        | absent => simp [getAllElements, namedMatches, hf, h]
        | present c => cases c <;> simp [getAllElements, namedMatches, hf, h]
      · cases ch with
        | absent => simp [getAllElements, namedMatches, hf, hm]
        | present c =>
          cases c with
          | undef => simp [getAllElements, namedMatches, hf, hm]
          | str s => simp [getAllElements, namedMatches, hf, hm]
          | bool b => simp [getAllElements, namedMatches, hf, hm]
          | arr cs =>
            simpa [getAllElements, namedMatches, hf, hm] using
              getAllElementsList_named cs X segs nm initElementCounts h
          | elem t2 nm2 ch2 =>
            have hseg : joinNames nm (getElementName (.elem t2 nm2 ch2) initElementCounts).1
                = String.join (segs ++ [(getElementName (.elem t2 nm2 ch2) initElementCounts).1]) := by
              rw [joinNames_eq_append, join_append_singleton, h]
            simpa [getAllElements, namedMatches, hf, hm] using
              getAllElements_named (.elem t2 nm2 ch2) X
                (segs ++ [(getElementName (.elem t2 nm2 ch2) initElementCounts).1])
                (joinNames nm (getElementName (.elem t2 nm2 ch2) initElementCounts).1) hseg

theorem getAllElementsList_named (cs : RChildList) (X : NodeType) (segs : List String)
    (nm : String) (counts : ElementCounts) (h : nm = String.join segs) :
    (getAllElementsList cs X [] nm counts).2
      = (namedMatchesList cs X segs counts).map (fun p => ⟨String.join p.1, p.2⟩) := by
  cases cs with
  | nil => rfl
  | cons c rest =>
    have hseg : joinNames nm (getElementName c counts).1
        = String.join (segs ++ [(getElementName c counts).1]) := by
      rw [joinNames_eq_append, join_append_singleton, h]
    have h1 := getAllElements_named c X (segs ++ [(getElementName c counts).1])
      (joinNames nm (getElementName c counts).1) hseg
    have h2 := getAllElementsList_named rest X segs nm (getElementName c counts).2 h
    simp [getAllElementsList, namedMatchesList, h1, h2]
end

/-! Default positional numbering: the counter of a counted kind and the name
`getElementName` derives for an untitled node of that kind. -/

theorem getElementName_counted (K : NodeType) (hK : K ∈ countedKinds)
    (counts : ElementCounts) :
    (getElementName (untitledNode K) counts).1
        = kindLabel K ++ toString (counterValue counts K + 1)
      ∧ counterValue (stepCounts K counts) K = counterValue counts K + 1 := by
  simp only [countedKinds, List.mem_cons, List.not_mem_nil, or_false] at hK
  rcases hK with rfl | rfl | rfl | rfl | rfl | rfl <;>
    simp [untitledNode, stepCounts, getElementName, getComponentName, counterValue, kindLabel]

theorem counterValue_init (K : NodeType) (hK : K ∈ countedKinds) :
    counterValue initElementCounts K = -1 := by
  simp only [countedKinds, List.mem_cons, List.not_mem_nil, or_false] at hK
  rcases hK with rfl | rfl | rfl | rfl | rfl | rfl <;> rfl

theorem counterValue_iterate (K : NodeType) (hK : K ∈ countedKinds) (n : Nat) :
    counterValue ((stepCounts K)^[n] initElementCounts) K = (n : Int) - 1 := by
  induction n with
  | zero => simpa using counterValue_init K hK
  | succ m ih =>
    rw [Function.iterate_succ_apply', (getElementName_counted K hK _).2, ih]
    push_cast
    ring

/-! The accumulator always comes back as a prefix of the result, and a
sanity check that every regex match attempt consumes at least one character
(so the tokenizer's fuel, one unit per input character, never runs out). -/

theorem alt1Search_pos (l : List Char) (k n : Nat) (h : alt1Search l k = some n) :
    1 ≤ n := by
  induction k with
  | zero => simp [alt1Search] at h
  | succ m ih =>
    cases m with
    | zero => simp [alt1Search] at h
    | succ j =>
      simp only [alt1Search] at h
      by_cases hc : lookCapWord (l.drop (j + 2)) || lookBoundary (l.drop (j + 2))
      · rw [if_pos hc] at h
        cases h
        omega
      · rw [if_neg hc] at h
        exact ih h

theorem matchOne_pos (l : List Char) (n : Nat) (h : matchOne l = some n) : 1 ≤ n := by
  rw [matchOne.eq_def] at h
  split at h
  · rename_i n1 heq
    cases h
    exact alt1Search_pos _ _ _ heq
  · split at h
    · cases h
    · rename_i c rest
      split_ifs at h with h1 h2 h3 h4
      · cases h
        omega
      · cases h
        omega
      · cases h
        omega
      · cases h
        simp only [List.takeWhile_cons, h4, if_true]
        simp

/-- The accumulator comes back, in order, at the front of every
`getAllElements` result. -/
theorem getAllElements_eq_append (t : RChild) (X : NodeType)
    (A : List MappedElement) (nm : String) :
    ∃ d, getAllElements t X A nm = A ++ d := by
  cases t with
  | undef => exact ⟨[], by simp [getAllElements]⟩
  | str s => exact ⟨[], by simp [getAllElements]⟩
  | bool b => exact ⟨[], by simp [getAllElements]⟩
  | arr cs => exact ⟨[], by simp [getAllElements]⟩
  | elem ty n ch =>
    by_cases hf : ty = .fragment
    · subst hf
      cases ch with
      | absent => exact ⟨[], by simp [getAllElements]⟩
      | present c => cases c <;> exact ⟨[], by simp [getAllElements]⟩
    · by_cases hm : ty = X
      · subst hm
        cases ch with
        | absent => exact ⟨[⟨nm, .elem ty n .absent⟩], by simp [getAllElements, hf]⟩
        | present c =>
          exact ⟨[⟨nm, .elem ty n (.present c)⟩], by cases c <;> simp [getAllElements, hf]⟩
      · cases ch with
        | absent => exact ⟨[], by simp [getAllElements, hf, hm]⟩
        | present c =>
          cases c with
          | undef => exact ⟨[], by simp [getAllElements, hf, hm]⟩
          | str s =>
            exact ⟨getAllElements (.str s) X A
              (joinNames nm (getElementName (.str s) initElementCounts).1),
              by simp [getAllElements, hf, hm]⟩
          | bool b =>
            exact ⟨getAllElements (.bool b) X A
              (joinNames nm (getElementName (.bool b) initElementCounts).1),
              by simp [getAllElements, hf, hm]⟩
          | arr cs =>
            exact ⟨(getAllElementsList cs X A nm initElementCounts).2,
              by simp [getAllElements, hf, hm]⟩
          | elem t2 nm2 ch2 =>
            exact ⟨getAllElements (.elem t2 nm2 ch2) X A
              (joinNames nm (getElementName (.elem t2 nm2 ch2) initElementCounts).1),
              by simp [getAllElements, hf, hm]⟩

/-- The sanitization filter keeps exactly the non-Fragment element nodes. -/
theorem isPrismComponent_eq_specKeep (c : RChild) : isPrismComponent c = specKeep c := by
  cases c with
  | elem t nm ch => by_cases h : t = .fragment <;> simp [isPrismComponent, specKeep, h]
  | undef => rfl
  | str s => rfl
  | bool b => rfl
  | arr cs => rfl

/-! Claim theorems. -/

/-- C1 counterexample: three untitled Area siblings are named `area0`,
`area1`, `area2` — not `area1..area3` as claimed — and an untitled
AxisAnnotation is named `Annotation0`, not `axisAnnotation1`: the format
string displays the counter value itself (seeded `-1`, pre-incremented to
`0`), with no `+1` offset, and the AxisAnnotation format string is
`Annotation...`. -/
theorem C1_counterexample :
    (getAllElements threeAreasParent .area [] "").map MappedElement.name
        = ["area0", "area1", "area2"]
    ∧ (getAllElements threeAreasParent .area [] "").map MappedElement.name
        ≠ ["area1", "area2", "area3"]
    ∧ (getAllElements annotParent .axisAnnot [] "").map MappedElement.name
        = ["Annotation0"] :=
  ⟨by decide, by decide, by decide⟩

/-- C1 (amended): for every counted kind, the default segment name of the
untitled sibling at 0-based position `n` (counting per fresh ElementCounts
map) is the kind's format-string label followed by `n` — `area0`, `area1`,
`area2` for three untitled Areas — and the AxisAnnotation label is
`Annotation`, so its names have the form `Annotation<n>`. -/
theorem C1_default_segment_names :
    (∀ K, K ∈ countedKinds → ∀ n : Nat,
      nthUntitledName K n = kindLabel K ++ toString (n : Int))
    ∧ (getAllElements threeAreasParent .area [] "").map MappedElement.name
        = ["area0", "area1", "area2"] := by
  constructor
  · intro K hK n
    have h1 := (getElementName_counted K hK ((stepCounts K)^[n] initElementCounts)).1
    rw [nthUntitledName, h1, counterValue_iterate K hK n, Int.sub_add_cancel]
  · decide

/-- C1 witness: the third untitled AxisAnnotation sibling is `Annotation2`. -/
theorem C1_default_segment_names_witness :
    nthUntitledName .axisAnnot 2 = "Annotation2" := by
  have h := C1_default_segment_names.1 .axisAnnot (by decide) 2
  rw [h]
  rfl

/-- C2 counterexample: a Line node wrapped in a Fragment has type Line and no
Line-typed ancestor, yet `getAllElements` returns no record for it — the
Fragment gate stops the traversal before the Line is reached. -/
theorem C2_counterexample :
    getAllElements fragWrappedLine .line [] "" = []
    ∧ fragWrappedLine
        = .elem (.other 0) none (.present (.arr (.cons
            (.elem .fragment none (.present (.arr (.cons (.elem .line none .absent) .nil))))
            .nil))) :=
  ⟨by decide, by decide⟩

/-- C2 (amended): `getAllElements(T, X, [], "")` contains exactly one record,
in pre-order, for each X-typed node the traversal reaches — descending only
through traversable (element, non-Fragment, non-matching) nodes and the
one-level `toArray` coercion of their children — and no other records; a
matching node's descendants are not searched. -/
theorem C2_traversal_matches (T : RChild) (X : NodeType) :
    (getAllElements T X [] "").map MappedElement.element = shallowMatches T X :=
  getAllElements_elements T X ""

/-- C3 counterexample: with the non-empty accumulator `[seedRecord]`, the
result repeats the accumulator entry: each child call is passed the original
accumulator and returns its own copy of it, and the loop pushes that full
result, so `seedRecord` occurs twice. -/
theorem C3_counterexample :
    getAllElements oneLineParent .line [seedRecord] ""
        = [seedRecord, seedRecord, ⟨"line0", lineNode⟩]
    ∧ (getAllElements oneLineParent .line [seedRecord] "").count seedRecord = 2 :=
  ⟨by decide, by decide⟩

/-- C3 (amended): the result always begins with the accumulator `A` in order,
followed by the concatenation of the children's full recursive results (each
of which starts with its own copy of `A`, so entries of `A` can recur); when
`A = []` the result is exactly the newly discovered matches across all
children in child order, each occurring exactly once. -/
theorem C3_accumulator_semantics :
    (∀ (T : RChild) (X : NodeType) (A : List MappedElement) (p : String),
      ∃ d, getAllElements T X A p = A ++ d)
    ∧ (∀ (T : RChild) (X : NodeType) (p : String),
      (getAllElements T X [] p).map MappedElement.element = shallowMatches T X) :=
  ⟨getAllElements_eq_append, getAllElements_elements⟩

/-- C4 counterexample: a Line child of the root is recorded under the name
`line0` — its OWN segment — although every proper ancestor contributed an
empty segment, so the claimed name (ancestors only, excluding the node
itself) would be the empty string. -/
theorem C4_counterexample :
    (getAllElements oneLineParent .line [] "").map MappedElement.name = ["line0"]
    ∧ ("line0" : String) ≠ "" :=
  ⟨by decide, by decide⟩

/-- C4 (amended): each record's name is the concatenation, in traversal order
and with no separator, of the segment names assigned along its path from the
root down to AND INCLUDING the matched node itself (the root contributes no
segment; an empty segment contributes nothing). -/
theorem C4_name_composition (T : RChild) (X : NodeType) :
    getAllElements T X [] ""
      = (namedMatches T X []).map (fun p => ⟨String.join p.1, p.2⟩) :=
  getAllElements_named T X [] "" rfl

/-- C5: `getElement` is total and never faults: `undefined`, booleans,
strings, values without a `type` (arrays), and Fragment-tagged nodes yield
`undefined`; a node whose type equals the target is returned itself, its
children unsearched (the outer of two nested Axis nodes); otherwise the
result is the head of the depth-first pre-order match list over the coerced
children — `undefined` exactly when no match exists, a normal outcome. -/
theorem C5_getElement_total_contract :
    (∀ ty : NodeType, getElement .undef ty = none)
    ∧ (∀ (b : Bool) (ty : NodeType), getElement (.bool b) ty = none)
    ∧ (∀ (s : String) (ty : NodeType), getElement (.str s) ty = none)
    ∧ (∀ (cs : RChildList) (ty : NodeType), getElement (.arr cs) ty = none)
    ∧ (∀ (nm : Option String) (ch : RChildren) (ty : NodeType),
        getElement (.elem .fragment nm ch) ty = none)
    ∧ (∀ (t : NodeType) (nm : Option String) (ch : RChildren), t ≠ .fragment →
        getElement (.elem t nm ch) t = some (.elem t nm ch))
    ∧ getElement (.elem .axis none (.present (.elem .axis (some "inner") .absent))) .axis
        = some (.elem .axis none (.present (.elem .axis (some "inner") .absent)))
    ∧ (∀ (x : RChild) (ty : NodeType), getElement x ty = (shallowMatches x ty).head?) := by
  refine ⟨fun _ => rfl, fun _ _ => rfl, fun _ _ => rfl, fun _ _ => rfl, ?_, ?_, by decide,
    getElement_eq_head⟩
  · intro nm ch ty
    cases ch with
    | absent => rfl
    | present c => cases c <;> rfl
  · intro t nm ch ht
    cases ch with
    | absent => simp [getElement, ht]
    | present c => cases c <;> simp [getElement, ht]

/-- C5 witness: a childless Bar node looked up as Bar is returned itself. -/
theorem C5_getElement_total_contract_witness :
    getElement (.elem .bar none .absent) .bar = some (.elem .bar none .absent) :=
  C5_getElement_total_contract.2.2.2.2.2.1 .bar none .absent (by decide)

/-- C6: for any of the six counted kinds or Trendline, a non-empty
user-supplied `props.name` overrides the positional default entirely,
camel-cased, regardless of the counter state; an Area named
"My Custom Area" yields the segment `myCustomArea`. -/
theorem C6_name_override :
    (∀ (K : NodeType) (s : String) (ch : RChildren) (counts : ElementCounts),
      (K ∈ countedKinds ∨ K = .trendline) → s ≠ "" →
      (getElementName (.elem K (some s) ch) counts).1 = toCamelCase s)
    ∧ (∀ (ch : RChildren) (counts : ElementCounts),
      (getElementName (.elem .area (some "My Custom Area") ch) counts).1 = "myCustomArea") := by
  constructor
  · intro K s ch counts hK hs
    rcases hK with hK | rfl
    · simp only [countedKinds, List.mem_cons, List.not_mem_nil, or_false] at hK
      rcases hK with rfl | rfl | rfl | rfl | rfl | rfl <;>
        simp [getElementName, getComponentName, hs]
    · simp [getElementName, getComponentName, hs]
  · intro ch counts
    have hs : ("My Custom Area" : String) ≠ "" := by decide
    simp only [getElementName, getComponentName, hs, if_true, ne_eq, not_false_iff, ite_true]
    decide

/-- C6 witness: a Trendline named "foo bar" yields the segment `fooBar`. -/
theorem C6_name_override_witness :
    (getElementName (.elem .trendline (some "foo bar") .absent) initElementCounts).1
      = "fooBar" := by
  have h := C6_name_override.1 .trendline "foo bar" .absent initElementCounts
    (Or.inr rfl) (by decide)
  rw [h]
  decide

/-- C7 counterexample: `toCamelCase("MY_COOL_area2")` is `"mYCOOLArea2"`, not
`"myCoolArea2"`: the underscore is an ECMAScript word character, so the
`[A-Z]{2,}` alternative's `\b` lookahead fails before `_` and the letters of
`MY` and `COOL` tokenize one by one. -/
theorem C7_counterexample :
    toCamelCase "MY_COOL_area2" = "mYCOOLArea2"
    ∧ "mYCOOLArea2" ≠ "myCoolArea2" :=
  ⟨by decide, by decide⟩

/-- C7 (amended): `toCamelCase("MY_COOL_area2") = "mYCOOLArea2"` (underscores
split uppercase runs into single-letter tokens), `toSnakeCase("myCoolArea2")
= "my_cool_area2"`, and an input in which the tokenizing pattern finds no
tokens is returned unchanged by `toCamelCase`. -/
theorem C7_case_conversion :
    toCamelCase "MY_COOL_area2" = "mYCOOLArea2"
    ∧ toSnakeCase "myCoolArea2" = "my_cool_area2"
    ∧ (∀ s : String, tokenize s.data = [] → toCamelCase s = s) := by
  refine ⟨by decide, by decide, ?_⟩
  intro s h
  simp [toCamelCase, h]

/-- C7 witness: a symbol-only input has no tokens and comes back unchanged. -/
theorem C7_case_conversion_witness : toCamelCase "!!!" = "!!!" :=
  C7_case_conversion.2.2 "!!!" (by decide)

/-- The chart-children sanitizer is the `specKeep` filter of the flattened
coercion. -/
theorem sanitizeChartChildren_eq_filter (children : RChildren) :
    sanitizeChartChildren children = (flatOnce (toArray children)).filter specKeep := by
  simp [sanitizeChartChildren, isChartChildElement, isPrismComponent_eq_specKeep]

/-- C8 counterexample: the children value `[[[Bar]]]` still contains an array
after the single flatten, and sanitization drops that array although it is
not a string, boolean, `undefined`, or wrapper node — the claimed output
would keep it. -/
theorem C8_counterexample :
    sanitizeChartChildren deepNestedChildren = []
    ∧ (flatOnce (toArray deepNestedChildren)).filter (fun c => !(specRemoved c))
        = [.arr (.cons barNode .nil)]
    ∧ ([] : List RChild) ≠ [RChild.arr (.cons barNode .nil)] :=
  ⟨by decide, by decide, by decide⟩

/-- C8 (amended): every sanitization function returns the coerced,
one-level-flattened sequence filtered to exactly the element nodes whose
type is not the Fragment tag (so strings, booleans, `undefined`, wrappers,
and any still-nested arrays are removed), preserving relative order and
multiplicities (no deduplication); `[wrapper, Area, "text", Bar]` sanitizes
to `[Area, Bar]`. -/
theorem C8_sanitize :
    sanitizeChartChildren (.present (.arr (.cons wrapperNode (.cons areaNode
        (.cons (.str "text") (.cons barNode .nil)))))) = [areaNode, barNode]
    ∧ (∀ children, sanitizeChartChildren children
        = (flatOnce (toArray children)).filter specKeep)
    ∧ (∀ children, (sanitizeChartChildren children).Sublist (flatOnce (toArray children)))
    ∧ (∀ children x, (sanitizeChartChildren children).count x
        = if specKeep x then (flatOnce (toArray children)).count x else 0)
    ∧ (∀ children, sanitizeMarkChildren children = sanitizeChartChildren children
        ∧ sanitizeAxisChildren children = sanitizeChartChildren children
        ∧ sanitizeAxisAnnotationChildren children = sanitizeChartChildren children
        ∧ sanitizeTrendlineChildren children = sanitizeChartChildren children) := by
  refine ⟨by decide, sanitizeChartChildren_eq_filter, ?_, ?_, fun _ => ⟨rfl, rfl, rfl, rfl⟩⟩
  · intro children
    rw [sanitizeChartChildren_eq_filter]
    exact List.filter_sublist _
  · intro children x
    rw [sanitizeChartChildren_eq_filter]
    by_cases hx : specKeep x
    · rw [if_pos hx, List.count_filter hx]
    · rw [if_neg hx, List.count_eq_zero]
      intro hmem
      exact hx (List.mem_filter.1 hmem).2

/-- C9: the single-match traversal agrees with the head of the exhaustive
one: `getElement(T, X)` is the `element` of the first record of
`getAllElements(T, X, [], "")`, and is `undefined` exactly when that list is
empty. -/
theorem C9_single_matches_exhaustive (T : RChild) (X : NodeType) :
    getElement T X = ((getAllElements T X [] "").head?).map MappedElement.element
    ∧ (getElement T X = none ↔ getAllElements T X [] "" = []) := by
  have h1 := getElement_eq_head T X
  have h2 := getAllElements_elements T X ""
  constructor
  · rw [h1, ← h2, List.head?_map]
  · rw [h1]
    constructor
    · intro h
      have h3 : shallowMatches T X = [] := List.head?_eq_none_iff.1 h
      rw [← h2] at h3
      exact List.map_eq_nil_iff.1 h3
    · intro h
      simp [← h2, h]

/-- C10: `toggleStringArrayValue` flips membership — the value is in the
result iff it was not in the input — and for a value not in the input,
toggling twice returns the input list itself (the embedding is pure, so the
source's no-mutation guarantee is the fact that both calls are functions of
their arguments only). -/
theorem C10_toggle_membership :
    (∀ (t : List String) (v : String), v ∈ toggleStringArrayValue t v ↔ v ∉ t)
    ∧ (∀ (t : List String) (v : String), v ∉ t →
        toggleStringArrayValue (toggleStringArrayValue t v) v = t) := by
  constructor
  · intro t v
    by_cases h : v ∈ t
    · simp [toggleStringArrayValue, List.contains, h, List.mem_filter]
    · simp [toggleStringArrayValue, List.contains, h]
  · intro t v hv
    have h1 : toggleStringArrayValue t v = t ++ [v] := by
      simp [toggleStringArrayValue, List.contains, hv]
    rw [h1]
    have h2 : (t ++ [v]).contains v = true := by
      simp [List.contains]
    simp only [toggleStringArrayValue, h2, if_true]
    have h3 : t.filter (fun item => item ≠ v) = t :=
      List.filter_eq_self.2 (fun a ha => by
        simp only [ne_eq, decide_eq_true_eq]
        exact fun hav => hv (hav ▸ ha))
    rw [List.filter_append, h3]
    simp

/-- C10 witness: toggling a fresh value twice restores the original array. -/
theorem C10_toggle_membership_witness :
    toggleStringArrayValue (toggleStringArrayValue ["a", "b"] "c") "c" = ["a", "b"] :=
  C10_toggle_membership.2 ["a", "b"] "c" (by decide)
